import Mathlib

/-!
# Verification of `rc.process` (`src/rc/process/process.py`)

A shallow embedding of the `Process` supervisor class: lifecycle state
machine (`_advance`), chunk-to-line reassembly (`_handle_io`), callback
dispatch with per-callback exception isolation, the pump exit handling
(`_watch`), the public accessors (`stdout`/`stderr`, `stdin`, `wait`,
`find_line`) and the thread wiring of `start`.

All I/O and times are modelled explicitly: chunks of decoded text are
lists of characters, wall-clock instants are rationals, each poll loop is
a function over the finite trace of observations it makes.
-/

namespace RcProcess

/-- Lifecycle states of `Process` (the string enums `NEW` .. `CANCELED`). -/
inductive St
  | new
  | running
  | done
  | failed
  | canceled
deriving DecidableEq, Repr

/-- `Process.FINAL = [DONE, FAILED, CANCELED]`. -/
def finalList : List St := [St.done, St.failed, St.canceled]

/-- `self._state in self.FINAL`; `self._state` is `None` before `__init__`
runs `_advance(NEW)`, and `None in FINAL` is false. -/
def stIsFinal : Option St → Bool
  | some s => finalList.contains s
  | none   => false

/-! ## Line reassembly (`Process._handle_io`, lines 635-661)

Decoded text is modelled as `List Char`; `splitNl` is Python's
`str.split('\n')`, `popLast` is `lines.pop()` (returning the remaining
list together with the removed last element). -/

/-- Python `s.split('\n')`: `"" ↦ [""]`, `"a\nb" ↦ ["a","b"]`,
`"a\n" ↦ ["a",""]`. -/
def splitNl : List Char → List (List Char)
  | [] => [[]]
  | c :: cs =>
    if c = '\n' then [] :: splitNl cs
    else
      match splitNl cs with
      | [] => [[c]]
      | l :: ls => (c :: l) :: ls

/-- Inverse of `splitNl`: join fragments with `'\n'`. -/
def joinNl : List (List Char) → List Char
  | [] => []
  | [l] => l
  | l :: ls => l ++ '\n' :: joinNl ls

/-- Each completed line with its newline reinserted, concatenated. -/
def trailJoin (ls : List (List Char)) : List Char :=
  (ls.map (fun l => l ++ ['\n'])).flatten

/-- `lines.pop()`: the list without its last element, and that element
(`([], [])` on the empty list, which never occurs here). -/
def popLast : List (List Char) → List (List Char) × List Char
  | [] => ([], [])
  | [l] => ([], l)
  | l :: l' :: ls => (l :: (popLast (l' :: ls)).1, (popLast (l' :: ls)).2)

/-- The per-stream mutable buffers of `_handle_io`: the raw accumulator
(`_buf_out` / `_buf_err`) and the partial-line buffer
(`_lbuf_out` / `_lbuf_err`). -/
structure LineState where
  buf  : List Char
  lbuf : List Char
deriving DecidableEq, Repr

/-- One call of `_handle_io` for a stream, restricted to its buffer
effects: append the decoded chunk to the raw accumulator; if it holds no
newline, extend the partial-line buffer; otherwise split, prepend the old
partial-line buffer to the first fragment, keep the popped last fragment
as the new partial-line buffer and emit the completed lines (the argument
of the line callbacks). -/
def handleChunk (st : LineState) (sdata : List Char) :
    LineState × Option (List (List Char)) :=
  let buf := st.buf ++ sdata
  if '\n' ∈ sdata then
    match splitNl sdata with
    | [] =>
      -- unreachable: `splitNl` never returns the empty list
      ({ buf := buf, lbuf := st.lbuf }, none)
    | l0 :: rest =>
      ({ buf := buf, lbuf := (popLast ((st.lbuf ++ l0) :: rest)).2 },
       some (popLast ((st.lbuf ++ l0) :: rest)).1)
  else
    ({ buf := buf, lbuf := st.lbuf ++ sdata }, none)

/-- Feed a sequence of chunks; collect every line-callback argument in
order. -/
def feedChunks (st : LineState) : List (List Char) →
    LineState × List (List (List Char))
  | [] => (st, [])
  | c :: cs =>
    ((feedChunks (handleChunk st c).1 cs).1,
     (handleChunk st c).2.toList ++ (feedChunks (handleChunk st c).1 cs).2)

/-- The empty pair of buffers a stream starts with. -/
def initLineState : LineState := { buf := [], lbuf := [] }

theorem splitNl_ne_nil (s : List Char) : splitNl s ≠ [] := by
  induction s with
  | nil => simp [splitNl]
  | cons c cs ih =>
    simp only [splitNl]
    split
    · simp
    · cases h : splitNl cs with
      | nil => simp
      | cons l ls => simp

theorem joinNl_splitNl (s : List Char) : joinNl (splitNl s) = s := by
  induction s with
  | nil => rfl
  | cons c cs ih =>
    simp only [splitNl]
    split
    · rename_i hc
      subst hc
      cases h : splitNl cs with
      | nil => exact absurd h (splitNl_ne_nil cs)
      | cons l ls =>
        rw [h] at ih
        simpa [joinNl] using ih
    · cases h : splitNl cs with
      | nil => exact absurd h (splitNl_ne_nil cs)
      | cons l ls =>
        rw [h] at ih
        cases ls with
        | nil => simpa [joinNl] using ih
        | cons l' ls' => simpa [joinNl] using ih

theorem joinNl_cons_append (x l : List Char) (ls : List (List Char)) :
    joinNl ((x ++ l) :: ls) = x ++ joinNl (l :: ls) := by
  cases ls with
  | nil => rfl
  | cons l' ls' => simp [joinNl]

theorem trailJoin_nil : trailJoin [] = [] := rfl

theorem trailJoin_cons (l : List Char) (ls : List (List Char)) :
    trailJoin (l :: ls) = l ++ '\n' :: trailJoin ls := by
  simp [trailJoin]

theorem trailJoin_append (a b : List (List Char)) :
    trailJoin (a ++ b) = trailJoin a ++ trailJoin b := by
  simp [trailJoin]

theorem trailJoin_popLast (ls : List (List Char)) :
    trailJoin (popLast ls).1 ++ (popLast ls).2 = joinNl ls := by
  induction ls with
  | nil => rfl
  | cons l ls ih =>
    cases ls with
    | nil => rfl
    | cons l' ls' =>
      simp only [popLast, joinNl]
      rw [trailJoin_cons, List.append_assoc, List.cons_append]
      rw [ih]

/-- Invariant of one `_handle_io` call: the emitted completed lines, each
with its newline restored, followed by the new partial-line buffer,
reproduce the old partial-line buffer plus the chunk; and the raw
accumulator grows by exactly the chunk. -/
theorem handleChunk_spec (st : LineState) (sdata : List Char) :
    (handleChunk st sdata).1.buf = st.buf ++ sdata ∧
    trailJoin (((handleChunk st sdata).2).getD []) ++
        (handleChunk st sdata).1.lbuf = st.lbuf ++ sdata := by
  unfold handleChunk
  by_cases hmem : '\n' ∈ sdata
  · simp only [hmem, if_pos]
    cases h : splitNl sdata with
    | nil => exact absurd h (splitNl_ne_nil sdata)
    | cons l0 rest =>
      refine ⟨rfl, ?_⟩
      have hp := trailJoin_popLast ((st.lbuf ++ l0) :: rest)
      have hj : joinNl ((st.lbuf ++ l0) :: rest) = st.lbuf ++ sdata := by
        rw [joinNl_cons_append]
        have := joinNl_splitNl sdata
        rw [h] at this
        rw [this]
      simpa [hj] using hp
  · simp [hmem, trailJoin_nil]

/-- The trace invariant, generalised over the starting buffers. -/
theorem feedChunks_spec (chunks : List (List Char)) (st : LineState) :
    (feedChunks st chunks).1.buf = st.buf ++ chunks.flatten ∧
    trailJoin ((feedChunks st chunks).2).flatten ++
        (feedChunks st chunks).1.lbuf = st.lbuf ++ chunks.flatten := by
  induction chunks generalizing st with
  | nil => simp [feedChunks, trailJoin_nil]
  | cons c cs ih =>
    have h1 := handleChunk_spec st c
    simp only [feedChunks]
    obtain ⟨ihb, ihl⟩ := ih (handleChunk st c).1
    constructor
    · simp [ihb, h1.1]
    · cases hev : (handleChunk st c).2 with
      | none =>
        have hlb : (handleChunk st c).1.lbuf = st.lbuf ++ c := by
          have h2 := h1.2
          rw [hev] at h2
          simpa [trailJoin_nil] using h2
        simp only [hev, Option.toList_none, List.nil_append, List.flatten_cons]
        rw [ihl, hlb]
        simp
      | some ev =>
        have hlb : trailJoin ev ++ (handleChunk st c).1.lbuf = st.lbuf ++ c := by
          have h2 := h1.2
          rw [hev] at h2
          simpa using h2
        simp only [hev, Option.toList_some, List.singleton_append,
          List.flatten_cons, trailJoin_append, List.append_assoc]
        rw [ihl, ← List.append_assoc, hlb]
        simp

/-! ## Supervisor state (`Process.__init__` and friends)

The constructor arguments `stdin`/`stdout`/`stderr` each accept `True`,
`False` or a string; the mutable attributes are the state, the return
code, the cancellation flag (`self._cancel`), the child handle
(`self._proc`, modelled by its presence), and the three buffers. -/

/-- `stdin=` argument: `False`, `True`, or a string of data to feed. -/
inductive InSpec
  | off
  | pipe
  | data (s : String)
deriving DecidableEq, Repr

/-- `stdout=`/`stderr=` argument: `False` (discard), `True` (capture), or
a file name to redirect to. -/
inductive OutSpec
  | off
  | capture
  | file (path : String)
deriving DecidableEq, Repr

/-- The immutable construction-time configuration. -/
structure Config where
  cmd : String
  shell : Bool
  stdinSpec : InSpec
  stdoutSpec : OutSpec
  stderrSpec : OutSpec
deriving DecidableEq, Repr

/-- The mutable attributes of a `Process` instance. -/
structure PState where
  state : Option St
  retcode : Option Int
  cancelFlag : Bool
  procPresent : Bool
  exited : Bool
  bufIn : String
  bufOut : String
  bufErr : String
deriving DecidableEq, Repr

/-- `_advance` (state part, lines 338-344): a transition attempted while
already FINAL is silently dropped. -/
def advanceSt (p : PState) (s : St) : PState :=
  if stIsFinal p.state then p else { p with state := some s }

/-! ## Callback dispatch (`_advance` lines 345-351, `_handle_io`
lines 637-661)

A registered callback is abstracted by what it does when invoked:
return normally or raise. The dispatch loop records which callbacks got
invoked and which raised (and were reported via `_handle_error`). -/

/-- Behaviour of one user callback when invoked. -/
inductive CbBeh
  | ok
  | raises
deriving DecidableEq, Repr

/-- What a dispatch loop did: indices invoked, indices whose exception
was caught and reported. -/
structure CbLog where
  invoked : List Nat
  reported : List Nat
deriving DecidableEq, Repr

def emptyLog : CbLog := ⟨[], []⟩

/-- `for cb in cbs: try: cb(...) except Exception as e: self._handle_error(e)`
starting at index `i`. -/
def runCbFrom (i : Nat) : List CbBeh → CbLog
  | [] => emptyLog
  | b :: rest =>
    let l := runCbFrom (i + 1) rest
    match b with
    | .ok => ⟨i :: l.invoked, l.reported⟩
    | .raises => ⟨i :: l.invoked, i :: l.reported⟩

def runCbLoop (cbs : List CbBeh) : CbLog := runCbFrom 0 cbs

/-- `_advance` with its state-callback loop. -/
def advanceCbs (cbs : List CbBeh) (p : PState) (s : St) : PState × CbLog :=
  if stIsFinal p.state then (p, emptyLog)
  else ({ p with state := some s }, runCbLoop cbs)

/-- A sequence of `_advance` attempts, each with the state callbacks
registered at that moment. -/
def advanceCbsSeq (p : PState) : List (St × List CbBeh) → PState × List CbLog
  | [] => (p, [])
  | (s, cbs) :: rest =>
    ((advanceCbsSeq (advanceCbs cbs p s).1 rest).1,
     (advanceCbs cbs p s).2 :: (advanceCbsSeq (advanceCbs cbs p s).1 rest).2)

/-- `_handle_io` with callback behaviours: buffer effects as in
`handleChunk`, every chunk callback wrapped individually, and the line
callbacks run exactly when the chunk completed lines. -/
def handleIoCbs (chunkCbs lineCbs : List CbBeh) (st : LineState)
    (sdata : List Char) : LineState × CbLog × CbLog :=
  ((handleChunk st sdata).1,
   runCbLoop chunkCbs,
   match (handleChunk st sdata).2 with
   | some _ => runCbLoop lineCbs
   | none => emptyLog)

/-! ## Pump exit handling and public operations -/

/-- `_watch` lines 571-581: the child has exited with code `ret`. The
return code is recorded before the transition; the loop breaks
(`exited`). -/
def watchExit (p : PState) (ret : Int) : PState :=
  if p.cancelFlag then { advanceSt p St.canceled with exited := true }
  else if ret = 0 then
    { advanceSt { p with retcode := some 0 } St.done with exited := true }
  else
    { advanceSt { p with retcode := some ret } St.failed with exited := true }

/-- `stdout` property (lines 218-230): `None` when capture was disabled
(`self._stdout is False`), otherwise return and clear the raw buffer. -/
def stdoutRead (cfg : Config) (p : PState) : Option String × PState :=
  if cfg.stdoutSpec = OutSpec.off then (none, p)
  else (some p.bufOut, { p with bufOut := "" })

/-- `stderr` property (lines 233-246). -/
def stderrRead (cfg : Config) (p : PState) : Option String × PState :=
  if cfg.stderrSpec = OutSpec.off then (none, p)
  else (some p.bufErr, { p with bufErr := "" })

/-- `stdin()` (lines 274-287): raises `RuntimeError` when FINAL,
otherwise appends to the pending-input buffer. -/
def stdinWrite (p : PState) (d : String) : Except String PState :=
  if stIsFinal p.state then
    Except.error "stdin unavailable, process is not running."
  else Except.ok { p with bufIn := p.bufIn ++ d }

/-- `_watch` prelude (lines 499-516): when the constructor `stdin`
argument was a string, `self._buf_in = self._stdin` rebinds the whole
pending-input buffer to it; then `Popen`, `started.set()` and
`_advance(RUNNING)`. -/
def spawnStep (cfg : Config) (p : PState) : PState :=
  advanceSt
    { p with
      bufIn := match cfg.stdinSpec with | .data s => s | _ => p.bufIn,
      procPresent := true }
    St.running

/-- Observable events of one `Process` instance, guarded as the code
sequences them: `spawn` happens once from `NEW`, the pump polls the exit
status only while it holds the child handle and has not broken out of
its loop yet. -/
inductive Ev
  | spawn
  | stdinW (d : String)
  | cancelReq
  | ioOut (chunk : String)
  | ioErr (chunk : String)
  | readOut
  | readErr
  | exits (ret : Int)
  | cleanup
deriving DecidableEq, Repr

def applyEv (cfg : Config) (p : PState) : Ev → PState
  | .spawn =>
    if p.state = some St.new ∧ p.procPresent = false ∧ p.exited = false then
      spawnStep cfg p
    else p
  | .stdinW d => match stdinWrite p d with | .ok q => q | .error _ => p
  | .cancelReq => if p.procPresent then { p with cancelFlag := true } else p
  | .ioOut c => { p with bufOut := p.bufOut ++ c }
  | .ioErr c => { p with bufErr := p.bufErr ++ c }
  | .readOut => (stdoutRead cfg p).2
  | .readErr => (stderrRead cfg p).2
  | .exits ret => if p.procPresent = true ∧ p.exited = false then watchExit p ret else p
  | .cleanup => { p with procPresent := false }

/-- Attribute values before `__init__` runs `_advance(NEW)`. -/
def preInitState : PState :=
  { state := none, retcode := none, cancelFlag := false, procPresent := false,
    exited := false, bufIn := "", bufOut := "", bufErr := "" }

/-- State at the end of `__init__`. -/
def initState : PState := advanceSt preInitState St.new

def runEvents (cfg : Config) (evs : List Ev) : PState :=
  evs.foldl (applyEv cfg) initState

/-- States a `Process` instance can actually be in. -/
def Reachable (cfg : Config) (p : PState) : Prop :=
  ∃ evs : List Ev, runEvents cfg evs = p

/-! ## `wait` (lines 428-448)

`wait` returns immediately (i.e. yields Python `None`) when
`self._proc is None` — which holds both before `start()` and after
`_cleanup()` has run. Otherwise it loops: FINAL state returns the
recorded return code; an elapsed timeout (`time.time() - start > timeout`)
breaks out and returns `None`. One loop iteration is an observation of
the shared state at one instant; the first observation is the state at
call time. -/

inductive WaitOutcome
  | finished (rc : Option Int)
  | timedOut
  | notStarted
  | exhausted
deriving DecidableEq, Repr

/-- What one `wait` loop iteration observes under the lock. -/
structure WaitObs where
  isFinal : Bool
  rc : Option Int
  now : ℚ
deriving DecidableEq, Repr

def waitGo (start : ℚ) (timeout : Option ℚ) : List WaitObs → WaitOutcome
  | [] => .exhausted
  | o :: rest =>
    if o.isFinal then .finished o.rc
    else if (match timeout with
             | some t => decide (o.now - start > t)
             | none => false) then .timedOut
    else waitGo start timeout rest

def waitModel (p : PState) (start : ℚ) (timeout : Option ℚ)
    (future : List WaitObs) : WaitOutcome :=
  if p.procPresent = false then .notStarted
  else waitGo start timeout
    ({ isFinal := stIsFinal p.state, rc := p.retcode, now := start } :: future)

/-! ## `find_line` (lines 292-318)

Each iteration splits the current stdout raw buffer on newlines, returns
the first line the compiled pattern matches, then checks the timeout with
`start - time.time() > timeout`, then checks for a FINAL state (raising
`RuntimeError('find_line failed, process died.')`), then sleeps. -/

/-- The literal timeout guard of `find_line`:
`timeout is not None and start - time.time() > timeout`. -/
def findLineTimeoutHit (start now : ℚ) (timeout : Option ℚ) : Bool :=
  match timeout with
  | some t => decide (start - now > t)
  | none => false

/-- What one `find_line` iteration observes. -/
structure PollObs where
  bufOut : List Char
  now : ℚ
  isFinal : Bool
deriving DecidableEq, Repr

inductive FindOutcome
  | found (line : List Char)
  | notFound
  | died
  | stillPolling
deriving DecidableEq, Repr

def findLineIter (pat : List Char → Bool) (timeout : Option ℚ) (start : ℚ)
    (o : PollObs) : FindOutcome :=
  match (splitNl o.bufOut).find? pat with
  | some l => .found l
  | none =>
    if findLineTimeoutHit start o.now timeout then .notFound
    else if o.isFinal then .died
    else .stillPolling

/-- Run the `find_line` loop over a finite trace of observations; `none`
means the loop was still polling when the trace ended. -/
def findLineRun (pat : List Char → Bool) (timeout : Option ℚ) (start : ℚ) :
    List PollObs → Option FindOutcome
  | [] => none
  | o :: rest =>
    match findLineIter pat timeout start o with
    | .stillPolling => findLineRun pat timeout start rest
    | r => some r

/-! ## `start` wiring and spawn failure (lines 453-485)

`start()` creates `mt.Thread(target=self._watch, args=[started])` — the
bare `_watch`, not the `_safe_watch` wrapper — starts it and blocks on
`started.wait()`. The `started` event is set by `_watch` only after
`Popen` returned, so a spawn failure (e.g. `FileNotFoundError` for a
missing executable with `shell=False`) escapes `_watch` before
`started.set()`. -/

inductive WatcherTarget
  | watch
  | safeWatch
deriving DecidableEq, Repr

/-- The thread target wired in `start()` (line 462): `self._watch`. -/
def startThreadTarget : WatcherTarget := WatcherTarget.watch

/-- What the background thread leaves behind when `Popen` raises. -/
structure SpawnFailOutcome where
  finalState : PState
  startedSet : Bool
  escaped : Option String
deriving DecidableEq, Repr

/-- `_watch` on a spawn failure: `Popen` raises before `started.set()`;
nothing inside `_watch` catches, so the exception escapes the thread and
no transition happens. -/
def watchOnSpawnFail (p : PState) : SpawnFailOutcome :=
  { finalState := p, startedSet := false, escaped := some "FileNotFoundError" }

/-- `_safe_watch` on the same failure: catches, terminates the child if
present, `_advance(FAILED)`, then re-raises `RuntimeError` (so `started`
is still never set). -/
def safeWatchOnSpawnFail (p : PState) : SpawnFailOutcome :=
  { finalState := advanceSt p St.failed, startedSet := false,
    escaped := some "RuntimeError" }

def watcherOnSpawnFail : WatcherTarget → PState → SpawnFailOutcome
  | .watch, p => watchOnSpawnFail p
  | .safeWatch, p => safeWatchOnSpawnFail p

/-! ## Redirect-file writes (lines 499-503, 631-633)

`_watch` opens redirect files with `open(fname, 'w', buffering=1,
encoding='utf-8')` — a text-mode handle. `_handle_io` calls
`fio.write(data)` where `data` is the `bytes` value returned by
`os.read`; a Python text-mode `write` accepts only `str` and raises
`TypeError` on `bytes`. -/

/-- A Python value crossing the write boundary. -/
inductive PyVal
  | pyStr (s : String)
  | pyBytes (b : List Nat)
deriving DecidableEq, Repr

/-- A file handle as opened somewhere in the program. -/
structure FileHandle where
  textMode : Bool
deriving DecidableEq, Repr

/-- `_open(fname, 'w')` = `open(fname, 'w', buffering=1, encoding='utf-8')`:
text mode. -/
def watchOpenRedirect : FileHandle := { textMode := true }

/-- Python file `write`: a text-mode handle accepts only `str`, a binary
handle only `bytes`. -/
def fileWrite (f : FileHandle) (v : PyVal) : Except String PyVal :=
  if f.textMode then
    match v with
    | .pyStr s => Except.ok (.pyStr s)
    | .pyBytes _ => Except.error "TypeError: write() argument must be str, not bytes"
  else
    match v with
    | .pyBytes b => Except.ok (.pyBytes b)
    | .pyStr _ => Except.error "TypeError: a bytes-like object is required, not str"

/-- The value `_handle_io` passes to `fio.write`: the raw `os.read`
result, which is `bytes`. -/
def handleIoWriteArg (data : List Nat) : PyVal := PyVal.pyBytes data

/-- The redirect step of `_handle_io`: `if fio: fio.write(data); fio.flush()`. -/
def handleIoRedirect (fio : Option FileHandle) (data : List Nat) :
    Except String Unit :=
  match fio with
  | none => Except.ok ()
  | some f =>
    match fileWrite f (handleIoWriteArg data) with
    | Except.ok _ => Except.ok ()
    | Except.error e => Except.error e

/-! ## Helper lemmas -/

theorem runCbFrom_invoked (cbs : List CbBeh) (i : Nat) :
    (runCbFrom i cbs).invoked = List.range' i cbs.length := by
  induction cbs generalizing i with
  | nil => simp [runCbFrom, emptyLog]
  | cons b rest ih =>
    cases b <;> simp [runCbFrom, ih, List.range']

theorem runCbLoop_invoked (cbs : List CbBeh) :
    (runCbLoop cbs).invoked = List.range cbs.length := by
  rw [runCbLoop, runCbFrom_invoked, List.range_eq_range']

/-- The exit-code invariant (spec §3): set iff DONE or FAILED. -/
def retcodeInv (p : PState) : Prop :=
  p.retcode ≠ none ↔ (p.state = some St.done ∨ p.state = some St.failed)

/-- Strengthened pump invariant: additionally, before the pump breaks out
of its loop, the state is NEW or RUNNING (terminal transitions are only
performed by the pump itself, at the break). -/
def pumpInv (p : PState) : Prop :=
  retcodeInv p ∧
  (p.exited = false → p.state = some St.new ∨ p.state = some St.running)

theorem pumpInv_applyEv (cfg : Config) (p : PState) (e : Ev)
    (h : pumpInv p) : pumpInv (applyEv cfg p e) := by
  obtain ⟨h1, h2⟩ := h
  obtain ⟨st, rc, cf, pp, ex, bi, bo, be⟩ := p
  simp only [retcodeInv] at h1
  cases e with
  | spawn =>
    simp only [applyEv]
    split
    · rename_i hg
      obtain ⟨hnew, hpp, hex⟩ := hg
      subst hnew hpp hex
      have hrc : rc = none := by
        by_contra hne
        rcases h1.mp hne with h' | h' <;> simp at h'
      subst hrc
      exact ⟨by simp [retcodeInv, spawnStep, advanceSt, stIsFinal, finalList],
             by simp [spawnStep, advanceSt, stIsFinal, finalList]⟩
    · exact ⟨h1, h2⟩
  | stdinW d =>
    simp only [applyEv, stdinWrite]
    split
    · rename_i q heq
      split at heq
      · exact absurd heq (by simp)
      · cases heq
        exact ⟨h1, h2⟩
    · exact ⟨h1, h2⟩
  | cancelReq =>
    simp only [applyEv]
    split <;> exact ⟨h1, h2⟩
  | ioOut c => exact ⟨h1, h2⟩
  | ioErr c => exact ⟨h1, h2⟩
  | readOut =>
    simp only [applyEv, stdoutRead]
    split <;> exact ⟨h1, h2⟩
  | readErr =>
    simp only [applyEv, stderrRead]
    split <;> exact ⟨h1, h2⟩
  | exits ret =>
    simp only [applyEv]
    split
    · rename_i hg
      obtain ⟨hpp, hex⟩ := hg
      subst hpp hex
      rcases h2 rfl with h'' | h'' <;> subst h'' <;>
        (have hrc : rc = none := by
          by_contra hne
          rcases h1.mp hne with h' | h' <;> simp at h') <;>
        subst hrc <;> cases cf <;> rcases eq_or_ne ret 0 with hz | hz <;>
          simp [pumpInv, watchExit, advanceSt, stIsFinal, finalList,
            retcodeInv, hz]
    · exact ⟨h1, h2⟩
  | cleanup => exact ⟨h1, h2⟩

theorem pumpInv_run (cfg : Config) (evs : List Ev) :
    pumpInv (runEvents cfg evs) := by
  have hinit : pumpInv initState := by
    constructor
    · simp [retcodeInv, initState, advanceSt, preInitState, stIsFinal]
    · intro h
      simp [initState, advanceSt, preInitState, stIsFinal]
  rw [runEvents]
  induction evs generalizing cfg with
  | nil => exact hinit
  | cons e evs ih =>
    have : ∀ q, pumpInv q → pumpInv (evs.foldl (applyEv cfg) q) := by
      clear ih
      induction evs with
      | nil => intro q hq; exact hq
      | cons e' evs' ih' =>
        intro q hq
        exact ih' _ (pumpInv_applyEv cfg q e' hq)
    exact this _ (pumpInv_applyEv cfg initState e hinit)

/-! ## Example instances used by witnesses -/

def cfgEx : Config :=
  { cmd := "echo test", shell := true, stdinSpec := InSpec.pipe,
    stdoutSpec := OutSpec.capture, stderrSpec := OutSpec.capture }

def cfgNoStderrEx : Config := { cfgEx with stderrSpec := OutSpec.off }

def cfgStdinDataEx : Config := { cfgEx with stdinSpec := InSpec.data "date\n" }

def pRunEx : PState :=
  { state := some St.running, retcode := none, cancelFlag := false,
    procPresent := true, exited := false, bufIn := "", bufOut := "",
    bufErr := "" }

def pDoneEx : PState :=
  { state := some St.done, retcode := some 0, cancelFlag := false,
    procPresent := false, exited := true, bufIn := "", bufOut := "",
    bufErr := "" }

def pBufEx : PState := { pRunEx with bufOut := "abc", bufErr := "xyz" }

def patEx (l : List Char) : Bool := l == "needle".toList

/-! ## Claims -/

/-- C1 (code bug): `start()` wires the background thread to the bare
`_watch` (line 462), not to the `_safe_watch` wrapper, so when the child
cannot be spawned the exception escapes the background thread: the state
never becomes FAILED (it stays NEW), and the `started` event is never
set, so `start()` blocks instead of returning after a FAILED signal —
contradicting the propagation policy the claim states. -/
theorem spawn_failure_crashes_thread :
    startThreadTarget = WatcherTarget.watch
    ∧ (watcherOnSpawnFail startThreadTarget initState).finalState = initState
    ∧ (watcherOnSpawnFail startThreadTarget initState).finalState.state =
        some St.new
    ∧ stIsFinal (watcherOnSpawnFail startThreadTarget initState).finalState.state
        = false
    ∧ (watcherOnSpawnFail startThreadTarget initState).startedSet = false
    ∧ (watcherOnSpawnFail startThreadTarget initState).escaped =
        some "FileNotFoundError" := by
  exact ⟨rfl, rfl, rfl, rfl, rfl, rfl⟩

/-- C2: feeding any sequence of decoded text chunks through the
`_handle_io` line reassembly, the raw accumulator (equivalently, the
concatenation of the chunk-callback payloads) equals the concatenated
input; the completed lines handed to line callbacks, each with its
newline reinserted, followed by the leftover partial-line buffer, also
equal the concatenated input; and the concrete two-chunk example yields
exactly one line-callback invocation with
`["line1 partial", "line2"]`, leaving `"line3 no newline"` buffered. -/
theorem line_reassembly_claim : ∀ chunks : List (List Char),
    (feedChunks initLineState chunks).1.buf = chunks.flatten
    ∧ trailJoin ((feedChunks initLineState chunks).2).flatten ++
        (feedChunks initLineState chunks).1.lbuf = chunks.flatten
    ∧ (feedChunks initLineState
        ["line1 part".toList, "ial\nline2\nline3 no newline".toList]).2 =
        [["line1 partial".toList, "line2".toList]]
    ∧ (feedChunks initLineState
        ["line1 part".toList, "ial\nline2\nline3 no newline".toList]).1.lbuf =
        "line3 no newline".toList := by
  intro chunks
  refine ⟨?_, ?_, by decide, by decide⟩
  · simpa [initLineState] using (feedChunks_spec chunks initLineState).1
  · simpa [initLineState] using (feedChunks_spec chunks initLineState).2

/-- C3 (code bug): the timeout guard of `find_line` is
`start - time.time() > timeout` (line 312), comparing a nonpositive
quantity against the timeout, so for every nonnegative timeout the
not-found return is unreachable: over any trace of observations made at
or after the call instant, the loop never returns the not-found
sentinel, contradicting the docstring and the claim. -/
theorem find_line_timeout_never_fires (pat : List Char → Bool) (t start : ℚ)
    (trace : List PollObs) (ht : 0 ≤ t)
    (hmono : ∀ o ∈ trace, start ≤ o.now) :
    findLineRun pat (some t) start trace ≠ some FindOutcome.notFound := by
  induction trace with
  | nil => simp [findLineRun]
  | cons o rest ih =>
    have hnow : start ≤ o.now := hmono o (List.mem_cons_self o rest)
    have hhit : findLineTimeoutHit start o.now (some t) = false := by
      simp only [findLineTimeoutHit, decide_eq_false_iff_not, not_lt]
      linarith
    cases hf : (splitNl o.bufOut).find? pat with
    | some l => simp [findLineRun, findLineIter, hf]
    | none =>
      cases hfin : o.isFinal with
      | true => simp [findLineRun, findLineIter, hf, hhit, hfin]
      | false =>
        simp only [findLineRun, findLineIter, hf, hhit, Bool.false_eq_true,
          if_false, hfin]
        exact ih (fun o' ho' => hmono o' (List.mem_cons_of_mem o ho'))

/-- Witness for C3 at a concrete input: pattern `needle`, timeout 1,
observation made 5 time units after the call with no matching line — the
loop is still polling rather than returning the not-found sentinel. -/
theorem find_line_timeout_never_fires_witness :
    findLineRun patEx (some 1) 0
      [{ bufOut := "noise".toList, now := 5, isFinal := false }] ≠
      some FindOutcome.notFound :=
  find_line_timeout_never_fires patEx 1 0 _ (by norm_num)
    (by
      intro o ho
      rw [List.mem_singleton] at ho
      subst ho
      show (0 : ℚ) ≤ 5
      norm_num)

/-- C4: once the state is DONE, FAILED or CANCELED, every subsequently
attempted transition is silently ignored: the instance state never
changes and no state callback is invoked, for every sequence of
subsequent attempts (each with whatever callbacks are registered at that
moment). -/
theorem final_state_transitions_noop (p : PState)
    (h : stIsFinal p.state = true) (attempts : List (St × List CbBeh)) :
    (advanceCbsSeq p attempts).1 = p
    ∧ ∀ log ∈ (advanceCbsSeq p attempts).2, log = emptyLog := by
  induction attempts with
  | nil => exact ⟨rfl, by simp [advanceCbsSeq]⟩
  | cons a rest ih =>
    obtain ⟨s, cbs⟩ := a
    have hstep : advanceCbs cbs p s = (p, emptyLog) := by
      simp [advanceCbs, h]
    refine ⟨?_, ?_⟩
    · simp only [advanceCbsSeq, hstep]
      exact ih.1
    · intro log hlog
      simp only [advanceCbsSeq, hstep] at hlog
      rcases List.mem_cons.mp hlog with h' | h'
      · exact h'
      · exact ih.2 log h'

/-- Witness for C4: a DONE instance ignores two further attempts. -/
theorem final_state_transitions_noop_witness :
    (advanceCbsSeq pDoneEx [(St.running, [CbBeh.ok]), (St.canceled, [])]).1 =
      pDoneEx
    ∧ ∀ log ∈ (advanceCbsSeq pDoneEx
        [(St.running, [CbBeh.ok]), (St.canceled, [])]).2, log = emptyLog :=
  final_state_transitions_noop pDoneEx (by decide) _

/-- C5: when the pump observes the exit of the child from a non-FINAL
state: cancellation flag set gives CANCELED with the return code left
untouched, exit code zero is recorded with DONE, a nonzero code is
recorded with FAILED; and over every reachable instance state the return
code is set if and only if the state is DONE or FAILED. -/
theorem exit_recording_claim :
    (∀ (p : PState) (ret : Int), stIsFinal p.state = false →
      ((p.cancelFlag = true →
        watchExit p ret = { p with state := some St.canceled, exited := true })
       ∧ (p.cancelFlag = false → ret = 0 →
        watchExit p ret = { p with retcode := some 0, state := some St.done, exited := true })
       ∧ (p.cancelFlag = false → ret ≠ 0 →
        watchExit p ret = { p with retcode := some ret, state := some St.failed, exited := true })))
    ∧ (∀ (cfg : Config) (p : PState), Reachable cfg p →
        (p.retcode ≠ none ↔
          (p.state = some St.done ∨ p.state = some St.failed))) := by
  constructor
  · intro p ret hnf
    refine ⟨?_, ?_, ?_⟩
    · intro hcf
      simp [watchExit, hcf, advanceSt, hnf]
    · intro hcf hz
      subst hz
      simp [watchExit, hcf, advanceSt, hnf]
    · intro hcf hz
      simp [watchExit, hcf, hz, advanceSt, hnf]
  · intro cfg p hr
    obtain ⟨evs, hevs⟩ := hr
    have h := (pumpInv_run cfg evs).1
    rw [hevs] at h
    exact h

/-- Witness for C5: a nonzero exit from RUNNING records the code with
FAILED, and the invariant holds at the reachable state after a clean
exit. -/
theorem exit_recording_claim_witness :
    watchExit pRunEx 3 =
      { pRunEx with retcode := some 3, state := some St.failed, exited := true }
    ∧ ((runEvents cfgEx [Ev.spawn, Ev.exits 0]).retcode ≠ none ↔
        ((runEvents cfgEx [Ev.spawn, Ev.exits 0]).state = some St.done ∨
         (runEvents cfgEx [Ev.spawn, Ev.exits 0]).state = some St.failed)) :=
  ⟨(exit_recording_claim.1 pRunEx 3 (by decide)).2.2 (by decide) (by decide),
   exit_recording_claim.2 cfgEx _ ⟨[Ev.spawn, Ev.exits 0], rfl⟩⟩

/-- C6 (counterexample): after the pump has finished and run `_cleanup`
(a reachable situation: spawn, clean exit, cleanup), the state is DONE
with recorded exit code 0, yet `wait()` takes the early
`self._proc is None` return and yields the not-started sentinel `None`
instead of the exit code — refuting the claim for calls made after the
process has finished. -/
theorem wait_after_cleanup_counterexample :
    (runEvents cfgEx [Ev.spawn, Ev.exits 0, Ev.cleanup]).state = some St.done
    ∧ (runEvents cfgEx [Ev.spawn, Ev.exits 0, Ev.cleanup]).retcode = some 0
    ∧ stIsFinal (runEvents cfgEx [Ev.spawn, Ev.exits 0, Ev.cleanup]).state =
        true
    ∧ waitModel (runEvents cfgEx [Ev.spawn, Ev.exits 0, Ev.cleanup]) 0 none []
        = WaitOutcome.notStarted := by
  decide

/-- C6 (amended): while the child handle is still held, a `wait` call
that observes a FINAL state returns the recorded exit code, and the
not-yet-final sentinel arises only from an elapsed timeout; but whenever
the handle is absent — before `start` or after cleanup — `wait` returns
the sentinel immediately regardless of state. -/
theorem wait_claim_amended :
    (∀ (p : PState) (start : ℚ) (timeout : Option ℚ)
       (future : List WaitObs), p.procPresent = true →
       stIsFinal p.state = true →
       waitModel p start timeout future = WaitOutcome.finished p.retcode)
    ∧ (∀ (p : PState) (start : ℚ) (timeout : Option ℚ)
       (future : List WaitObs), p.procPresent = false →
       waitModel p start timeout future = WaitOutcome.notStarted)
    ∧ (∀ (start t : ℚ) (obs : List WaitObs),
       waitGo start (some t) obs = WaitOutcome.timedOut →
       ∃ o ∈ obs, o.isFinal = false ∧ o.now - start > t) := by
  refine ⟨?_, ?_, ?_⟩
  · intro p start timeout future hpp hfin
    simp [waitModel, hpp, waitGo, hfin]
  · intro p start timeout future hpp
    simp [waitModel, hpp]
  · intro start t obs
    induction obs with
    | nil => intro h; simp [waitGo] at h
    | cons o rest ih =>
      intro h
      simp only [waitGo, decide_eq_true_eq] at h
      by_cases hfin : o.isFinal = true
      · rw [if_pos hfin] at h
        exact absurd h (by simp)
      · have hfin' : o.isFinal = false := by simpa using hfin
        rw [if_neg hfin] at h
        by_cases hhit : o.now - start > t
        · exact ⟨o, List.mem_cons_self o rest, hfin', hhit⟩
        · rw [if_neg hhit] at h
          obtain ⟨o', ho', hf', hh'⟩ := ih h
          exact ⟨o', List.mem_cons_of_mem o ho', hf', hh'⟩

/-- Witness for C6 (amended): before cleanup a call after the clean exit
returns the recorded code; on a never-started instance it returns the
sentinel. -/
theorem wait_claim_amended_witness :
    waitModel (runEvents cfgEx [Ev.spawn, Ev.exits 0]) 0 none [] =
      WaitOutcome.finished (runEvents cfgEx [Ev.spawn, Ev.exits 0]).retcode
    ∧ waitModel initState 0 none [] = WaitOutcome.notStarted :=
  ⟨wait_claim_amended.1 _ 0 none [] (by decide) (by decide),
   wait_claim_amended.2.1 initState 0 none [] (by decide)⟩

/-- C7 (code bug): redirect files are opened by `_watch` in text mode
(`open(fname, 'w', buffering=1, encoding='utf-8')`), but `_handle_io`
passes `fio.write` the raw `bytes` from `os.read`; a Python text-mode
write accepts only `str`, so every chunk written to a configured
redirect file raises `TypeError` instead of being appended — refuting
the claim that the write succeeds for arbitrary chunk content. -/
theorem redirect_write_raises :
    watchOpenRedirect.textMode = true
    ∧ (∀ data : List Nat,
        handleIoRedirect (some watchOpenRedirect) data =
          Except.error "TypeError: write() argument must be str, not bytes") := by
  exact ⟨rfl, fun data => rfl⟩

/-- C8: callback failures are isolated: the buffer effects of
`_handle_io` are exactly those of the pure reassembly step no matter
what the callbacks do, every chunk callback is invoked, and whenever the
chunk completed lines every line callback is invoked as well — even if
every chunk callback raised; likewise `_advance` performs its transition
and invokes every state callback regardless of their behaviour. -/
theorem callback_isolation_claim :
    (∀ (chunkCbs lineCbs : List CbBeh) (st : LineState) (sdata : List Char),
      (handleIoCbs chunkCbs lineCbs st sdata).1 = (handleChunk st sdata).1
      ∧ (handleIoCbs chunkCbs lineCbs st sdata).2.1.invoked =
          List.range chunkCbs.length
      ∧ ((handleChunk st sdata).2 ≠ none →
         (handleIoCbs chunkCbs lineCbs st sdata).2.2.invoked =
           List.range lineCbs.length))
    ∧ (∀ (cbs : List CbBeh) (p : PState) (s : St),
       stIsFinal p.state = false →
       (advanceCbs cbs p s).1 = { p with state := some s }
       ∧ (advanceCbs cbs p s).2.invoked = List.range cbs.length) := by
  constructor
  · intro chunkCbs lineCbs st sdata
    refine ⟨rfl, runCbLoop_invoked chunkCbs, ?_⟩
    intro hev
    cases hev' : (handleChunk st sdata).2 with
    | none => exact absurd hev' hev
    | some ev =>
      simp only [handleIoCbs, hev']
      exact runCbLoop_invoked lineCbs
  · intro cbs p s hnf
    constructor
    · simp [advanceCbs, hnf]
    · simp [advanceCbs, hnf, runCbLoop_invoked]

/-- Witness for C8: a raising chunk callback does not block the line
callback fired from the same chunk, and a raising state callback does
not block the transition. -/
theorem callback_isolation_claim_witness :
    (handleIoCbs [CbBeh.raises] [CbBeh.ok] initLineState "a\n".toList).2.2.invoked
      = List.range 1
    ∧ (advanceCbs [CbBeh.raises] pRunEx St.done).1 =
        { pRunEx with state := some St.done }
    ∧ (advanceCbs [CbBeh.raises] pRunEx St.done).2.invoked = List.range 1 :=
  ⟨(callback_isolation_claim.1 [CbBeh.raises] [CbBeh.ok] initLineState
      "a\n".toList).2.2 (by decide),
   (callback_isolation_claim.2 [CbBeh.raises] pRunEx St.done (by decide)).1,
   (callback_isolation_claim.2 [CbBeh.raises] pRunEx St.done (by decide)).2⟩

/-- C9: the `stdout` and `stderr` accessors return the accumulated
captured text and clear the raw buffer, so a second read with no
intervening data yields the empty string; and with capture disabled
(`False` argument) they return the disabled sentinel and leave the state
untouched, regardless of the rest of the state. -/
theorem accessor_drain_claim :
    ∀ (cfg : Config) (p : PState),
      (cfg.stdoutSpec ≠ OutSpec.off →
        (stdoutRead cfg p).1 = some p.bufOut
        ∧ (stdoutRead cfg (stdoutRead cfg p).2).1 = some "")
      ∧ (cfg.stdoutSpec = OutSpec.off → stdoutRead cfg p = (none, p))
      ∧ (cfg.stderrSpec ≠ OutSpec.off →
        (stderrRead cfg p).1 = some p.bufErr
        ∧ (stderrRead cfg (stderrRead cfg p).2).1 = some "")
      ∧ (cfg.stderrSpec = OutSpec.off → stderrRead cfg p = (none, p)) := by
  intro cfg p
  refine ⟨?_, ?_, ?_, ?_⟩ <;> intro h <;> simp [stdoutRead, stderrRead, h]

/-- Witness for C9: with stdout captured and stderr disabled, reading
stdout twice drains it, and stderr returns the sentinel. -/
theorem accessor_drain_claim_witness :
    (stdoutRead cfgNoStderrEx pBufEx).1 = some "abc"
    ∧ (stdoutRead cfgNoStderrEx (stdoutRead cfgNoStderrEx pBufEx).2).1 =
        some ""
    ∧ stderrRead cfgNoStderrEx pBufEx = (none, pBufEx) :=
  ⟨((accessor_drain_claim cfgNoStderrEx pBufEx).1 (by decide)).1,
   ((accessor_drain_claim cfgNoStderrEx pBufEx).1 (by decide)).2,
   (accessor_drain_claim cfgNoStderrEx pBufEx).2.2.2 (by decide)⟩

/-- C10: when the constructor received a string for `stdin`, the spawn
prelude of `_watch` rebinds the pending-input buffer to that string, so
any data accepted by `stdin()` between construction and `start()` is
silently discarded. -/
theorem ctor_stdin_replaces_buffer (cfg : Config) (s : String)
    (hc : cfg.stdinSpec = InSpec.data s) (p : PState) (d : String)
    (hnf : stIsFinal p.state = false) :
    stdinWrite p d = Except.ok { p with bufIn := p.bufIn ++ d }
    ∧ (spawnStep cfg { p with bufIn := p.bufIn ++ d }).bufIn = s := by
  constructor
  · simp [stdinWrite, hnf]
  · unfold spawnStep advanceSt
    rw [hc]
    split <;> rfl

/-- Witness for C10: data written before `start()` is replaced by the
constructor string at spawn. -/
theorem ctor_stdin_replaces_buffer_witness :
    stdinWrite initState "early data" =
      Except.ok { initState with bufIn := initState.bufIn ++ "early data" }
    ∧ (spawnStep cfgStdinDataEx
        { initState with bufIn := initState.bufIn ++ "early data" }).bufIn =
        "date\n" :=
  ctor_stdin_replaces_buffer cfgStdinDataEx "date\n" (by decide) initState
    "early data" (by decide)

end RcProcess
